import Mathlib

set_option maxHeartbeats 1000000
set_option maxRecDepth 100000
set_option linter.dupNamespace false

/-!
Verification of the `transform` Go package (a composable string-transformation
engine) against its specification. Go strings are modelled as lists of bytes
(`List Nat`), matching Go's byte-indexed string semantics; external
collaborators (the regexp engine, the process environment, the Unicode case
tables of the standard library) are modelled explicitly and documented at
their definitions. All definitions are executable so that concrete runs can
be settled by kernel evaluation.
-/

namespace transform

/-- Go strings are byte sequences; we model them as lists of byte values. -/
abbrev Str : Type := List Nat

/-- UTF-8 encoding of a Unicode scalar value, as Go's utf8.EncodeRune does. -/
def utf8EncodeChar (r : Nat) : List Nat :=
  if r < 0x80 then [r]
  else if r < 0x800 then [0xC0 + r / 64, 0x80 + r % 64]
  else if r < 0x10000 then [0xE0 + r / 4096, 0x80 + (r / 64) % 64, 0x80 + r % 64]
  else [0xF0 + r / 262144, 0x80 + (r / 4096) % 64, 0x80 + (r / 64) % 64, 0x80 + r % 64]

/-- Byte-level view of a Lean string literal: UTF-8 bytes of its characters.
Used to write concrete Go strings in theorems. -/
def strB (s : String) : Str :=
  (s.data.map (fun c => utf8EncodeChar c.toNat)).flatten

/-- Decode the first rune of a byte sequence, returning the rune and the number
of bytes consumed, following Go's utf8.DecodeRuneInString: an invalid or
truncated sequence yields (U+FFFD, 1); the empty string yields (U+FFFD, 0).
This models the external utf8 package. -/
def utf8DecodeFirst : Str → Nat × Nat
  | [] => (0xFFFD, 0)
  | b0 :: rest =>
    if b0 < 0x80 then (b0, 1)
    else if b0 < 0xC2 then (0xFFFD, 1)
    else if b0 < 0xE0 then
      match rest with
      | b1 :: _ =>
        if 0x80 ≤ b1 ∧ b1 ≤ 0xBF then ((b0 - 0xC0) * 64 + (b1 - 0x80), 2)
        else (0xFFFD, 1)
      | [] => (0xFFFD, 1)
    else if b0 < 0xF0 then
      match rest with
      | b1 :: b2 :: _ =>
        if (if b0 = 0xE0 then 0xA0 ≤ b1 ∧ b1 ≤ 0xBF
            else if b0 = 0xED then 0x80 ≤ b1 ∧ b1 ≤ 0x9F
            else 0x80 ≤ b1 ∧ b1 ≤ 0xBF) ∧ (0x80 ≤ b2 ∧ b2 ≤ 0xBF) then
          ((b0 - 0xE0) * 4096 + (b1 - 0x80) * 64 + (b2 - 0x80), 3)
        else (0xFFFD, 1)
      | _ => (0xFFFD, 1)
    else if b0 ≤ 0xF4 then
      match rest with
      | b1 :: b2 :: b3 :: _ =>
        if (if b0 = 0xF0 then 0x90 ≤ b1 ∧ b1 ≤ 0xBF
            else if b0 = 0xF4 then 0x80 ≤ b1 ∧ b1 ≤ 0x8F
            else 0x80 ≤ b1 ∧ b1 ≤ 0xBF) ∧ (0x80 ≤ b2 ∧ b2 ≤ 0xBF) ∧ (0x80 ≤ b3 ∧ b3 ≤ 0xBF) then
          ((b0 - 0xF0) * 262144 + (b1 - 0x80) * 4096 + (b2 - 0x80) * 64 + (b3 - 0x80), 4)
        else (0xFFFD, 1)
      | _ => (0xFFFD, 1)
    else (0xFFFD, 1)

/-- Rune-by-rune map over a UTF-8 byte sequence, fuel-indexed so that it is
structurally recursive (each step consumes at least one byte, so fuel equal to
the byte length suffices). Models the iteration of Go's strings.Map. -/
def mapRunesFuel (f : Nat → Nat) : Nat → Str → Str
  | 0, _ => []
  | _ + 1, [] => []
  | n + 1, b :: rest =>
    let p := utf8DecodeFirst (b :: rest)
    utf8EncodeChar (f p.1) ++ mapRunesFuel f n (List.drop (p.2 - 1) rest)

/-- Rune-by-rune map over a UTF-8 byte sequence. -/
def mapRunes (f : Nat → Nat) (s : Str) : Str :=
  mapRunesFuel f (List.length s) s

/-- Partial model of unicode.ToUpper: exact on ASCII and on the code points
this development evaluates (U+00E9 é → U+00C9 É, U+FFFD fixed); identity
elsewhere. -/
def upperRune (r : Nat) : Nat :=
  if 97 ≤ r ∧ r ≤ 122 then r - 32
  else if r = 0xE9 then 0xC9
  else r

/-- Partial model of unicode.ToLower: exact on ASCII and on the code points
this development evaluates (U+00C9 É → U+00E9 é, U+FFFD fixed); identity
elsewhere. -/
def lowerRune (r : Nat) : Nat :=
  if 65 ≤ r ∧ r ≤ 90 then r + 32
  else if r = 0xC9 then 0xE9
  else r

/-- Model of strings.ToUpper. -/
def goToUpper (s : Str) : Str := mapRunes upperRune s

/-- Model of strings.ToLower. -/
def goToLower (s : Str) : Str := mapRunes lowerRune s

/-- Whitespace bytes trimmed by strings.TrimSpace; partial model restricted
to ASCII whitespace (exact for ASCII input, which is all this package's
callers and our theorems use). -/
def isSpaceB (b : Nat) : Bool :=
  b == 32 || b == 9 || b == 10 || b == 11 || b == 12 || b == 13

/-- Model of strings.TrimSpace: strip leading and trailing whitespace. -/
def goTrimSpace (s : Str) : Str :=
  (((s.dropWhile isSpaceB).reverse).dropWhile isSpaceB).reverse

/-- Model of strings.Split(s, sep) for a one-byte separator: splitting the
empty string yields one empty field. -/
def splitByte (c : Nat) : Str → List Str
  | [] => [[]]
  | b :: rest =>
    if b = c then [] :: splitByte c rest
    else
      match splitByte c rest with
      | h :: t => (b :: h) :: t
      | [] => [[b]]

/-- Model of strings.SplitN(s, sep, 2) for a one-byte separator: the part
before the first separator, and the remainder if a separator occurred. -/
def splitFirstByte (c : Nat) : Str → Str × Option Str
  | [] => ([], none)
  | b :: rest =>
    if b = c then ([], some rest)
    else
      let p := splitFirstByte c rest
      (b :: p.1, p.2)

/-- Model of strings.Contains for a non-empty needle; Contains(s, "") is true. -/
def containsGo : Str → Str → Bool
  | [], _ => false
  | b :: rest, sub => List.isPrefixOf sub (b :: rest) || containsGo rest sub

/-- Model of strings.Contains. -/
def goContains (s sub : Str) : Bool :=
  if sub.isEmpty then true else containsGo s sub

/-- Fuel-indexed worker for goReplaceAll: replace each non-overlapping
occurrence of old, scanning left to right. Each step consumes at least one
byte, so fuel equal to the byte length suffices. -/
def replaceFuel (old new : Str) : Nat → Str → Str
  | 0, s => s
  | _ + 1, [] => []
  | n + 1, b :: rest =>
    if List.isPrefixOf old (b :: rest) then
      new ++ replaceFuel old new n (List.drop (List.length old - 1) rest)
    else
      b :: replaceFuel old new n rest

/-- Model of strings.ReplaceAll, faithful for a non-empty old string (the only
way this package calls it — old is always "%s"). -/
def goReplaceAll (s old new : Str) : Str :=
  if old.isEmpty then s else replaceFuel old new (List.length s) s

/-- Go slice expression s[i:j], as used with regexp match indices. -/
def goSlice (s : Str) (i j : Nat) : Str := (s.take j).drop i

/-- TransformFunc takes a string and applies a transformation, returning the
new string and an error (Go: `func(string) (string, error)`). Errors are
modelled by their message. -/
def TransformFunc : Type := Str → Str × Option Str

/-- LookupFunc resolves a name to a value and a found flag
(Go: `func(string) (string, bool)`). -/
def LookupFunc : Type := Str → Str × Bool

/-- Model of a compiled regexp.Regexp, the external collaborator of Expand:
its source text (re.String()), SubexpIndex, and
FindAllStringSubmatchIndex(s, -1), each match being the flattened list of
byte-index pairs [m0start, m0end, g1start, g1end, ...]. -/
structure Regexp where
  toStr : Str
  subexpIndex : Str → Int
  findAll : Str → List (List Int)

/-- Model of the external regexp package entry point regexp.Compile. -/
structure RegexpModel where
  compile : Str → Except Str Regexp

/-- Transform holds transformation configuration: the handler registry (a Go
map, modelled as an association list with unique keys), the ordered default
lookup functions, and the ordered default rules (entries may be nil, hence
Option). -/
structure Transform where
  Handlers : List (Str × TransformFunc)
  Lookups : List LookupFunc
  Rules : List (Option TransformFunc)

/-- TransformOption is an option applied to the Transform configuration on
instantiation; Go mutates in place, modelled as state passing. -/
def TransformOption : Type := Transform → Transform

/-- Go map indexing m[k] (zero value nil when absent), for the handler
registry. -/
def assocGet {α : Type} (m : List (Str × α)) (k : Str) : Option α :=
  match m with
  | [] => none
  | p :: rest => if p.1 = k then some p.2 else assocGet rest k

/-- Go map assignment m[k] = v. -/
def assocSet {α : Type} (m : List (Str × α)) (k : Str) (v : α) : List (Str × α) :=
  match m with
  | [] => [(k, v)]
  | p :: rest => if p.1 = k then (k, v) :: rest else p :: assocSet rest k v

/-- Go map deletion delete(m, k). -/
def assocDel {α : Type} (m : List (Str × α)) (k : Str) : List (Str × α) :=
  match m with
  | [] => []
  | p :: rest => if p.1 = k then assocDel rest k else p :: assocDel rest k

/-- NOP returns the given string unchanged. -/
def Transform.NOP (s : Str) : Str × Option Str := (s, none)

/-- Trim returns the string with leading and trailing whitespace removed. -/
def Transform.Trim (s : Str) : Str × Option Str := (goTrimSpace s, none)

/-- Downcase returns a lowercased version of the given string. -/
def Transform.Downcase (s : Str) : Str × Option Str := (goToLower s, none)

/-- Upcase returns an uppercased version of the given string. -/
def Transform.Upcase (s : Str) : Str × Option Str := (goToUpper s, none)

/-- Capitalize returns a capitalized version of the given string: the code
uppercases the first BYTE slice s[:1] and lowercases the byte remainder
s[1:]. -/
def Transform.Capitalize (s : Str) : Str × Option Str :=
  if s.isEmpty then ([], none)
  else (goToUpper (s.take 1) ++ goToLower (s.drop 1), none)

/-- The handler registry installed by ResetHandlers (Go map literal; the
association list fixes an order for the six distinct keys). -/
def defaultHandlers : List (Str × TransformFunc) :=
  [(strB "", Transform.NOP),
   (strB "nop", Transform.NOP),
   (strB "trim", Transform.Trim),
   (strB "downcase", Transform.Downcase),
   (strB "upcase", Transform.Upcase),
   (strB "capitalize", Transform.Capitalize)]

/-- ResetHandlers resets registered transformation handlers to their default
state. -/
def Transform.ResetHandlers (t : Transform) : Transform :=
  { t with Handlers := defaultHandlers }

/-- ResetLookups resets lookup functions to the given defaults. -/
def Transform.ResetLookups (t : Transform) (ff : List LookupFunc) : Transform :=
  { t with Lookups := ff }

/-- ResetRules resets transformation rules to the given defaults. -/
def Transform.ResetRules (t : Transform) (ff : List (Option TransformFunc)) : Transform :=
  { t with Rules := ff }

/-- Reset resets a transformation configuration to its default state, then
applies the given options in order. -/
def Transform.Reset (t : Transform) (ff : List TransformOption) : Transform :=
  ff.foldl (fun a f => f a) (((t.ResetHandlers).ResetLookups []).ResetRules [])

/-- New returns a new transformation configuration. -/
def Transform.New (ff : List TransformOption) : Transform :=
  Transform.Reset { Handlers := [], Lookups := [], Rules := [] } ff

/-- Lookup returns an option that appends default lookup functions. -/
def Lookup (ff : List LookupFunc) : TransformOption := fun t =>
  { t with Lookups := t.Lookups ++ ff }

/-- Handler returns an option that registers a new transformation handler
under the lowercased tag; the empty tag is a no-op, a nil function removes
the tag. -/
def Handler (tag : Str) (f : Option TransformFunc) : TransformOption := fun t =>
  if tag.isEmpty then t
  else
    match f with
    | none => { t with Handlers := assocDel t.Handlers (goToLower tag) }
    | some f => { t with Handlers := assocSet t.Handlers (goToLower tag) f }

/-- Rule adds default transformation rules for use with Transform(). -/
def Rule (ff : List (Option TransformFunc)) : TransformOption := fun t =>
  { t with Rules := t.Rules ++ ff }

/-- Inner loop of the lookup resolution in Expand: val starts as the empty
string and is set to the first value whose lookup reports found, so the
result is empty exactly when no lookup reports found or the first found
value is empty. -/
def resolveKey (ff : List LookupFunc) (key : Str) : Str :=
  match ff with
  | [] => []
  | f :: rest => if (f key).2 then (f key).1 else resolveKey rest key

/-- Read entry i of a flattened regexp match (Go would panic on a bad index;
the model totalizes with 0, and theorems never rely on that default). -/
def getIdx (m : List Int) (i : Nat) : Nat := (m.getD i 0).toNat

/-- The substring captured by group idx of match m in s. -/
def matchKey (s : Str) (idx : Nat) (m : List Int) : Str :=
  goSlice s (getIdx m (2 * idx)) (getIdx m (2 * idx + 1))

/-- The match-processing loop of the function returned by Expand: s2 is the
accumulated output, pos the end of the last match; each match's span is
replaced by its resolved value, and an unresolvable key aborts with an empty
string and an error naming the key. -/
def expandLoop (ff : List LookupFunc) (idx : Nat) (s : Str) :
    List (List Int) → Str → Nat → Str × Option Str
  | [], s2, pos => (s2 ++ List.drop pos s, none)
  | m :: ms, s2, pos =>
    let key := matchKey s idx m
    let val := resolveKey ff key
    if val.isEmpty then ([], some (strB "could not resolve variable: " ++ key))
    else expandLoop ff idx s ms (s2 ++ goSlice s pos (getIdx m 0) ++ val) (getIdx m 1)

/-- Expand returns a function that replaces patterns by looking up a named key
using the given lookup functions (or the configured default lookups when none
are given); the regexp must have a parenthesized subexpression called
"key". -/
def Transform.Expand (t : Transform) (re : Regexp) (ff : List LookupFunc) :
    Option TransformFunc × Option Str :=
  if re.subexpIndex (strB "key") = -1 then
    (none, some (strB "regexp is missing named parenthesized subexpression (?P<key>...): " ++ re.toStr))
  else
    (some (fun s =>
      let ms := re.findAll s
      if ms.isEmpty then (s, none)
      else
        expandLoop (if ff.isEmpty then t.Lookups else ff)
          (re.subexpIndex (strB "key")).toNat s ms [] 0), none)

/-- The tag of a rule string: the part before the first colon, trimmed and
lowercased. -/
def tagOf (rule : Str) : Str :=
  goToLower (goTrimSpace (splitFirstByte 58 rule).1)

/-- ParseStringRule parses a string transformation rule and returns the
corresponding transformation function, or an error if there is none. The
regexp engine M models the external regexp package. -/
def Transform.ParseStringRule (M : RegexpModel) (t : Transform) (rule : Str) :
    Option TransformFunc × Option Str :=
  match assocGet t.Handlers (tagOf rule) with
  | some f => (some f, none)
  | none =>
    if tagOf rule = strB "expand" then
      match (splitFirstByte 58 rule).2 with
      | none => (none, some (strB "expand: missing regex"))
      | some arg =>
        match M.compile arg with
        | Except.error e => (none, some (strB "regexp: " ++ arg ++ strB ": " ++ e))
        | Except.ok re =>
          match Transform.Expand t re [] with
          | (_, some e) => (none, some e)
          | (f, none) => (f, none)
    else (none, some (strB "unknown transform: " ++ tagOf rule))

/-- Inner loop of AddStringRules over the comma-separated pieces of one rule
string: trim, skip empties, parse, append to Rules, stop at the first parse
error (rules already appended remain appended). -/
def addSubRules (M : RegexpModel) (t : Transform) : List Str → Transform × Option Str
  | [] => (t, none)
  | s :: rest =>
    if (goTrimSpace s).isEmpty then addSubRules M t rest
    else
      let pr := Transform.ParseStringRule M t (goTrimSpace s)
      match pr.2 with
      | some e => (t, some e)
      | none => addSubRules M ⟨t.Handlers, t.Lookups, t.Rules ++ [pr.1]⟩ rest

/-- AddStringRules parses the given string transformation rules and adds the
corresponding transformation functions. -/
def Transform.AddStringRules (M : RegexpModel) (t : Transform) :
    List Str → Transform × Option Str
  | [] => (t, none)
  | r :: rest =>
    match addSubRules M t (splitByte 44 r) with
    | (t2, none) => Transform.AddStringRules M t2 rest
    | (t2, some e) => (t2, some e)

/-- LookupHandlers returns a lookup function that uses the given map as data
source (a missing key yields the zero value "" and found=false). -/
def LookupHandlers (m : List (Str × Str)) : LookupFunc := fun name =>
  match assocGet m name with
  | some v => (v, true)
  | none => ([], false)

/-- LookupEnv returns a lookup function that uses the current environment as
data source; os.Getenv is the external collaborator, modelled as the function
env (returning "" for unset names). A value that is the empty string is
reported as not found. -/
def LookupEnv (env : Str → Str) : LookupFunc := fun name =>
  if (env name).isEmpty then ([], false) else (env name, true)

/-- LookupStatic returns a lookup function that returns the given value; if
the value contains %s, all occurrences are replaced by the name that is
looked up. It always reports found. -/
def LookupStatic (val : Str) : LookupFunc := fun name =>
  if goContains val (strB "%s") then (goReplaceAll val (strB "%s") name, true)
  else (val, true)

/-- The rule-application loop of Transform.Transform: apply each non-nil
function in order; the first error aborts with an empty string and the error
wrapped with "rule". -/
def transformGo : List (Option TransformFunc) → Str → Str × Option Str
  | [], s => (s, none)
  | none :: rest, s => transformGo rest s
  | some f :: rest, s =>
    match f s with
    | (s1, none) => transformGo rest s1
    | (_, some e) => ([], some (strB "rule: " ++ e))

/-- Transform takes a string and applies the given transformation functions
to it; if none are given, it uses the configured default rules. -/
def Transform.Transform (t : Transform) (s : Str) (ff : List (Option TransformFunc)) :
    Str × Option Str :=
  transformGo (if ff.isEmpty then t.Rules else ff) s

/-- Apply the transformation function produced by Expand or ParseStringRule
to an input (test harness: the none case never occurs when construction
succeeded, and is given an empty result so stated properties stay honest). -/
def runTF (p : Option TransformFunc × Option Str) (s : Str) : Str × Option Str :=
  match p.1 with
  | some f => f s
  | none => ([], some (strB "no transform function"))

/-- Fuel-indexed scanner for fixedRegexp: find the leftmost non-overlapping
occurrences of the fixed byte pattern pat, reporting for each a flattened
match [start, end, keyStart, keyEnd] with the key group at offset kOff and
length kLen inside the pattern. Fuel equal to the byte length suffices since
each step consumes at least one byte. -/
def findFixedFuel (pat : Str) (kOff kLen : Nat) : Nat → Nat → Str → List (List Int)
  | 0, _, _ => []
  | _ + 1, _, [] => []
  | n + 1, i, b :: rest =>
    if List.isPrefixOf pat (b :: rest) && !pat.isEmpty then
      [(i : Int), (i + pat.length : Int), (i + kOff : Int), (i + kOff + kLen : Int)] ::
        findFixedFuel pat kOff kLen n (i + pat.length) (List.drop (pat.length - 1) rest)
    else findFixedFuel pat kOff kLen n (i + 1) rest

/-- An honest compiled-regexp model for a regular expression that matches one
fixed string with a single named group "key" inside it (group 1), e.g.
`\$\x7b(?P<key>X)\x7d` for the fixed string with the pattern text as source:
leftmost non-overlapping scanning, byte indices, as Go's regexp returns. -/
def fixedRegexp (pat : Str) (kOff kLen : Nat) : Regexp :=
  { toStr := pat
    subexpIndex := fun n => if n = strB "key" then 1 else if n.isEmpty then 0 else -1
    findAll := fun s => findFixedFuel pat kOff kLen s.length 0 s }

/-- Compiled-regexp model for a fixed pattern without any "key" group, to
exercise the construction-time check of Expand. -/
def fixedRegexpNoKey (pat : Str) : Regexp :=
  { toStr := pat
    subexpIndex := fun n => if n.isEmpty then 0 else -1
    findAll := fun s => findFixedFuel pat 0 0 s.length 0 s }

/-- Regexp model matching the literal text ${X} with key group "X". -/
def reX : Regexp := fixedRegexp (strB "$\x7bX\x7d") 2 1

/-- Regexp model matching the literal text ${NAME} with key group "NAME". -/
def reNAME : Regexp := fixedRegexp (strB "$\x7bNAME\x7d") 2 4

/-- Model of the external regexp.Compile for the concrete patterns the
witnesses exercise: the unterminated group "(?P<key>" fails to compile, a
pattern marked nokey: compiles without a key group, anything else compiles to
a fixed-string matcher with a trivial key group. -/
def Mtest : RegexpModel :=
  { compile := fun pat =>
      if pat = strB "(?P<key>" then Except.error (strB "missing closing )")
      else if pat = strB "nokey:pat" then Except.ok (fixedRegexpNoKey pat)
      else Except.ok (fixedRegexp pat 0 0) }

/-- The default configuration New() with no options: default handlers, no
lookups, no rules. -/
def T0 : Transform := Transform.New []

/-- Spec-side description of a successful expansion, following the spec's
words: each matched span [m0, m1) is replaced by the resolved value of the
key captured by group idx, and the text outside the matches (before, between
and after them) is passed through unchanged, in one left-to-right pass. -/
def expandSpecStr (resolve : Str → Str) (idx : Nat) (s : Str) :
    List (List Int) → Nat → Str
  | [], pos => List.drop pos s
  | m :: ms, pos =>
    goSlice s pos (getIdx m 0) ++ resolve (matchKey s idx m) ++
      expandSpecStr resolve idx s ms (getIdx m 1)

/-- The pieces of a list of sub-rule strings that survive trimming: trim each
piece, drop the empty ones. -/
def cleanedParts (parts : List Str) : List Str :=
  (parts.map goTrimSpace).filter (fun s => !s.isEmpty)

/-- The effective sub-rules of one AddStringRules argument string: split on
commas, trim each piece, drop the empty ones. -/
def subRuleList (r : Str) : List Str :=
  cleanedParts (splitByte 44 r)

/-! Helper lemmas. -/

theorem assocGet_assocDel_self {α : Type} (m : List (Str × α)) (k : Str) :
    assocGet (assocDel m k) k = none := by
  induction m with
  | nil => rfl
  | cons p rest ih =>
    by_cases h : p.1 = k
    · simpa [assocDel, h] using ih
    · simpa [assocDel, assocGet, h] using ih

theorem transformGo_append (l1 l2 : List (Option TransformFunc)) (s : Str) :
    transformGo (l1 ++ l2) s =
      match transformGo l1 s with
      | (s1, none) => transformGo l2 s1
      | (s1, some e) => (s1, some e) := by
  induction l1 generalizing s with
  | nil => rfl
  | cons hd rest ih =>
    cases hd with
    | none => simpa [transformGo] using ih s
    | some f =>
      rcases hf : f s with ⟨s1, e⟩
      cases e with
      | none => simp [transformGo, hf, ih s1]
      | some e0 => simp [transformGo, hf]

theorem transformGo_error_empty (l : List (Option TransformFunc)) :
    ∀ (s x : Str) (e : Str), transformGo l s = (x, some e) → x = [] := by
  induction l with
  | nil => intro s x e h; simp [transformGo] at h
  | cons hd rest ih =>
    intro s x e h
    cases hd with
    | none => exact ih s x e h
    | some f =>
      rcases hf : f s with ⟨s1, e1⟩
      cases e1 with
      | none =>
        simp only [transformGo, hf] at h
        exact ih s1 x e h
      | some e0 =>
        simp only [transformGo, hf] at h
        have h1 := congrArg Prod.fst h
        simpa using h1.symm

theorem runTF_Expand (t : Transform) (re : Regexp) (ff : List LookupFunc) (s : Str)
    (hk : ¬ re.subexpIndex (strB "key") = -1) :
    runTF (Transform.Expand t re ff) s =
      if (re.findAll s).isEmpty then (s, none)
      else
        expandLoop (if ff.isEmpty then t.Lookups else ff)
          (re.subexpIndex (strB "key")).toNat s (re.findAll s) [] 0 := by
  rw [Transform.Expand, if_neg hk]
  rfl

theorem expandLoop_error_empty (ff : List LookupFunc) (idx : Nat) (s : Str) :
    ∀ (ms : List (List Int)) (acc : Str) (pos : Nat) (x : Str) (e : Str),
      expandLoop ff idx s ms acc pos = (x, some e) → x = [] := by
  intro ms
  induction ms with
  | nil => intro acc pos x e h; simp [expandLoop] at h
  | cons m rest ih =>
    intro acc pos x e h
    cases hv : (resolveKey ff (matchKey s idx m)).isEmpty with
    | true =>
      simp only [expandLoop, hv] at h
      have h1 := congrArg Prod.fst h
      simpa using h1.symm
    | false =>
      simp only [expandLoop, hv] at h
      exact ih _ _ x e h

theorem expandLoop_ok (ff : List LookupFunc) (idx : Nat) (s : Str) :
    ∀ (ms : List (List Int)) (acc : Str) (pos : Nat),
      (∀ m ∈ ms, (resolveKey ff (matchKey s idx m)).isEmpty = false) →
      expandLoop ff idx s ms acc pos
        = (acc ++ expandSpecStr (resolveKey ff) idx s ms pos, none) := by
  intro ms
  induction ms with
  | nil => intro acc pos h; simp [expandLoop, expandSpecStr]
  | cons m rest ih =>
    intro acc pos h
    have hm := h m (List.mem_cons_self m rest)
    simp only [expandLoop, hm]
    rw [ih _ _ (fun m2 hm2 => h m2 (List.mem_cons_of_mem m hm2))]
    simp [expandSpecStr, List.append_assoc]

theorem expandLoop_fail (ff : List LookupFunc) (idx : Nat) (s : Str) :
    ∀ (ms : List (List Int)) (acc : Str) (pos : Nat) (m0 : List Int),
      ms.find? (fun m => (resolveKey ff (matchKey s idx m)).isEmpty) = some m0 →
      expandLoop ff idx s ms acc pos
        = ([], some (strB "could not resolve variable: " ++ matchKey s idx m0)) := by
  intro ms
  induction ms with
  | nil => intro acc pos m0 h; simp at h
  | cons m rest ih =>
    intro acc pos m0 h
    cases hv : (resolveKey ff (matchKey s idx m)).isEmpty with
    | true =>
      simp only [List.find?_cons, hv] at h
      cases h
      simp [expandLoop, hv]
    | false =>
      simp only [List.find?_cons, hv] at h
      simp only [expandLoop, hv]
      exact ih _ _ m0 h

/-! Claim theorems. -/

/-- Claim C1: the function returned by Expand (with a pattern that does have
the "key" group), applied to an input: with zero matches it returns the input
unchanged without error; if some match's key resolves to no found value or to
a first found value that is empty (the find? below locates the first such
match, where the loop stops), it fails with "could not resolve variable:
<key>"; otherwise every matched span is replaced by its resolved value and
the text outside the matches is unchanged. -/
theorem C1_expand (t : Transform) (re : Regexp) (ff : List LookupFunc) (s : Str)
    (hk : ¬ re.subexpIndex (strB "key") = -1) :
    (Transform.Expand t re ff).2 = none ∧
    (re.findAll s = [] → runTF (Transform.Expand t re ff) s = (s, none)) ∧
    (∀ m0 : List Int,
       (re.findAll s).find? (fun m =>
           (resolveKey (if ff.isEmpty then t.Lookups else ff)
             (matchKey s (re.subexpIndex (strB "key")).toNat m)).isEmpty) = some m0 →
       runTF (Transform.Expand t re ff) s
         = ([], some (strB "could not resolve variable: "
             ++ matchKey s (re.subexpIndex (strB "key")).toNat m0))) ∧
    ((re.findAll s).find? (fun m =>
         (resolveKey (if ff.isEmpty then t.Lookups else ff)
           (matchKey s (re.subexpIndex (strB "key")).toNat m)).isEmpty) = none →
     runTF (Transform.Expand t re ff) s
       = (expandSpecStr (resolveKey (if ff.isEmpty then t.Lookups else ff))
           (re.subexpIndex (strB "key")).toNat s (re.findAll s) 0, none)) := by
  refine ⟨?_, ?_, ?_, ?_⟩
  · rw [Transform.Expand, if_neg hk]
  · intro hnil
    rw [runTF_Expand t re ff s hk, if_pos (by simp [hnil])]
  · intro m0 hfind
    have hne : ¬ (re.findAll s).isEmpty = true := by
      cases hnil : re.findAll s with
      | nil => rw [hnil] at hfind; simp at hfind
      | cons a l => simp [hnil]
    rw [runTF_Expand t re ff s hk, if_neg hne]
    exact expandLoop_fail _ _ s _ [] 0 m0 hfind
  · intro hfind
    by_cases hemp : (re.findAll s).isEmpty = true
    · rw [runTF_Expand t re ff s hk, if_pos hemp]
      have hnil : re.findAll s = [] := by simpa using hemp
      rw [hnil]
      simp [expandSpecStr]
    · rw [runTF_Expand t re ff s hk, if_neg hemp]
      exact expandLoop_ok _ _ s _ [] 0 (fun m hm => by
        simpa using List.find?_eq_none.mp hfind m hm)

/-- Claim C1 witness: with lookups {NAME: Ada}, the input containing the
single reference to NAME expands to "Hello Ada!". -/
theorem C1_witness :
    (¬ reNAME.subexpIndex (strB "key") = -1) ∧
    runTF (Transform.Expand T0 reNAME [LookupHandlers [(strB "NAME", strB "Ada")]])
        (strB "Hello $\x7bNAME\x7d!")
      = (strB "Hello Ada!", none) := by
  constructor
  · decide
  · have h := (C1_expand T0 reNAME [LookupHandlers [(strB "NAME", strB "Ada")]]
        (strB "Hello $\x7bNAME\x7d!") (by decide)).2.2.2 (by decide)
    rw [h]
    decide

/-- Claim C2 counterexample: with the ordered lookups
[LookupStatic "", LookupHandlers {X:1}], expanding an input containing a
reference to X does NOT substitute "1": LookupStatic("") always reports
found=true with the empty value, so resolution stops there and the whole
expansion fails with "could not resolve variable: X". -/
theorem C2_counterexample :
    runTF (Transform.Expand T0 reX [LookupStatic (strB ""), LookupHandlers [(strB "X", strB "1")]])
        (strB "$\x7bX\x7d")
      = ([], some (strB "could not resolve variable: X")) ∧
    runTF (Transform.Expand T0 reX [LookupStatic (strB ""), LookupHandlers [(strB "X", strB "1")]])
        (strB "$\x7bX\x7d")
      ≠ (strB "1", none) := by
  constructor <;> decide

/-- Claim C2 (amended): during expansion the lookup list is queried in order
and resolution stops at the first lookup reporting found=true. LookupStatic("")
always reports found (with the empty value), so it cannot serve as a
never-found first source; with a first lookup that genuinely never reports
found (a map lookup over the empty map) followed by the map {X:1}, expanding
"$\x7bX\x7d" succeeds and substitutes "1" for the matched span. -/
theorem C2_first_found_wins :
    (∀ (f : LookupFunc) (rest : List LookupFunc) (key : Str),
       resolveKey (f :: rest) key = if (f key).2 then (f key).1 else resolveKey rest key) ∧
    LookupStatic (strB "") (strB "X") = ([], true) ∧
    runTF (Transform.Expand T0 reX [LookupHandlers [], LookupHandlers [(strB "X", strB "1")]])
        (strB "$\x7bX\x7d")
      = (strB "1", none) := by
  refine ⟨fun f rest key => rfl, by decide, by decide⟩

/-- Claim C3 counterexample: Capitalize splits at the first BYTE, not the
first character, so Capitalize("é") is not "É" (it is the two-byte halves of
é, each an invalid UTF-8 sequence case-mapped to U+FFFD). -/
theorem C3_counterexample :
    Transform.Capitalize (strB "é") ≠ (strB "É", none) ∧
    Transform.Capitalize (strB "é") = (strB "��", none) := by
  constructor <;> decide

/-- Claim C3 (amended): Capitalize maps "" to "" and never fails; for a
non-empty input it uppercases the one-BYTE prefix s[:1] and lowercases the
byte remainder s[1:] — byte-level, not character-level, so it agrees with the
character-level rule on inputs whose first character is ASCII
(Capitalize("hELLO") = "Hello") but mangles a multi-byte first character
(Capitalize("é") = "��", not "É"). -/
theorem C3_capitalize_bytewise :
    Transform.Capitalize (strB "") = (strB "", none) ∧
    (∀ s : Str, (Transform.Capitalize s).2 = none) ∧
    (∀ (b : Nat) (rest : List Nat),
       Transform.Capitalize (b :: rest) = (goToUpper [b] ++ goToLower rest, none)) ∧
    Transform.Capitalize (strB "hELLO") = (strB "Hello", none) ∧
    Transform.Capitalize (strB "é") = (strB "��", none) := by
  refine ⟨by decide, ?_, fun b rest => rfl, by decide, by decide⟩
  intro s
  cases s <;> rfl

/-- Claim C4: ResetHandlers reinstalls exactly the built-in tags — the
empty-string tag and "nop" (both the identity), "trim", "downcase", "upcase",
"capitalize" — discarding any prior registrations; in particular, after
registering nil under "trim" (which removes the tag) and then resetting, the
tag "trim" resolves to the built-in trim function again. -/
theorem C4_reset_handlers : ∀ t : Transform,
    ((Handler (strB "trim") none t).ResetHandlers).Handlers = defaultHandlers ∧
    assocGet ((Handler (strB "trim") none t).ResetHandlers).Handlers (strB "trim")
      = some Transform.Trim ∧
    assocGet (Handler (strB "trim") none t).Handlers (strB "trim") = none ∧
    defaultHandlers.map Prod.fst
      = [strB "", strB "nop", strB "trim", strB "downcase", strB "upcase", strB "capitalize"] ∧
    assocGet defaultHandlers (strB "") = some Transform.NOP ∧
    assocGet defaultHandlers (strB "nop") = some Transform.NOP ∧
    assocGet defaultHandlers (strB "downcase") = some Transform.Downcase ∧
    assocGet defaultHandlers (strB "upcase") = some Transform.Upcase ∧
    assocGet defaultHandlers (strB "capitalize") = some Transform.Capitalize := by
  intro t
  refine ⟨rfl, by rfl, ?_, by rfl, by rfl, by rfl, by rfl, by rfl, by rfl⟩
  show assocGet (assocDel t.Handlers (goToLower (strB "trim"))) (strB "trim") = none
  have h : goToLower (strB "trim") = strB "trim" := by decide
  rw [h]
  exact assocGet_assocDel_self t.Handlers (strB "trim")

/-- Claim C5: Transform applies the given functions (or the configured
default Rules when none are given) strictly in order, skipping nil entries;
the first function to fail aborts the pipeline, the error is wrapped with
"rule", and the result does not depend on the functions after the failing
one (they never execute). -/
theorem C5_pipeline (t : Transform) (s s1 x e : Str)
    (pre post : List (Option TransformFunc)) (f : TransformFunc)
    (hpre : transformGo pre s = (s1, none)) (hf : f s1 = (x, some e)) :
    Transform.Transform t s [] = transformGo t.Rules s ∧
    (∀ (l1 l2 : List (Option TransformFunc)) (u : Str),
       transformGo (l1 ++ none :: l2) u = transformGo (l1 ++ l2) u) ∧
    Transform.Transform t s (pre ++ some f :: post) = ([], some (strB "rule: " ++ e)) := by
  refine ⟨rfl, ?_, ?_⟩
  · intro l1 l2 u
    rw [transformGo_append, transformGo_append]
    rcases h1 : transformGo l1 u with ⟨u1, e1⟩
    cases e1 <;> simp [transformGo]
  · have hne : (pre ++ some f :: post).isEmpty = false := by
      cases pre <;> rfl
    rw [Transform.Transform]
    rw [if_neg (by simp [hne])]
    rw [transformGo_append, hpre]
    simp [transformGo, hf]

/-- Claim C5 witness: the pipeline [Upcase, always-fails, Downcase] applied
to "abc" returns the wrapped error, with the empty string. -/
theorem C5_witness :
    Transform.Transform T0 (strB "abc")
        ([some Transform.Upcase] ++ some (fun _ => ([], some (strB "boom"))) :: [some Transform.Downcase])
      = ([], some (strB "rule: boom")) := by
  have h := C5_pipeline T0 (strB "abc") (strB "ABC") [] (strB "boom")
      [some Transform.Upcase] [some Transform.Downcase]
      (fun _ => ([], some (strB "boom"))) (by decide) rfl
  exact h.2.2

/-- Claim C8: whenever Transform.Transform or an Expand-produced function
returns an error, the string returned alongside it is empty — never a
partial result. -/
theorem C8_error_empty_result :
    (∀ (t : Transform) (s : Str) (ff : List (Option TransformFunc)) (e : Str),
       (Transform.Transform t s ff).2 = some e → (Transform.Transform t s ff).1 = []) ∧
    (∀ (t : Transform) (re : Regexp) (ff : List LookupFunc) (s e : Str),
       (runTF (Transform.Expand t re ff) s).2 = some e →
       (runTF (Transform.Expand t re ff) s).1 = []) := by
  constructor
  · intro t s ff e h
    rcases hr : Transform.Transform t s ff with ⟨x, e1⟩
    rw [hr] at h
    simp at h ⊢
    subst h
    exact transformGo_error_empty _ s x e hr
  · intro t re ff s e h
    by_cases hk : re.subexpIndex (strB "key") = -1
    · simp [runTF, Transform.Expand, hk]
    · cases hms : (re.findAll s).isEmpty with
      | true =>
        rw [runTF_Expand t re ff s hk, if_pos hms] at h
        simp at h
      | false =>
        rw [runTF_Expand t re ff s hk, if_neg (by simp [hms])] at h ⊢
        rcases hr : expandLoop (if ff.isEmpty then t.Lookups else ff)
            (re.subexpIndex (strB "key")).toNat s (re.findAll s) [] 0 with ⟨x, e1⟩
        rw [hr] at h
        simp at h ⊢
        subst h
        exact expandLoop_error_empty _ _ s _ _ _ x e hr

/-- Claim C8 witness: a failing stage yields the empty string alongside the
error. -/
theorem C8_witness :
    (Transform.Transform T0 (strB "a") [some (fun _ => ([], some (strB "x")))]).1 = [] :=
  C8_error_empty_result.1 T0 (strB "a") [some (fun _ => ([], some (strB "x")))]
    (strB "rule: x") (by decide)

/-- Claim C9: the environment-backed lookup reports found=false whenever the
environment value for the queried name is the empty string, so such a
variable is indistinguishable from an unset one and resolution falls through
to later lookup sources. -/
theorem C9_lookupenv_empty (env : Str → Str) (name : Str) (h : env name = []) :
    LookupEnv env name = ([], false) ∧
    (∀ rest : List LookupFunc, resolveKey (LookupEnv env :: rest) name = resolveKey rest name) ∧
    LookupEnv env name = LookupEnv (fun _ => []) name := by
  refine ⟨by simp [LookupEnv, h], ?_, by simp [LookupEnv, h]⟩
  intro rest
  simp [resolveKey, LookupEnv, h]

/-- Claim C9 witness: an environment mapping every name to "" is reported as
not found. -/
theorem C9_witness :
    LookupEnv (fun _ => []) (strB "X") = ([], false) :=
  (C9_lookupenv_empty (fun _ => []) (strB "X") rfl).1

/-- Claim C10: the constant-template lookup reports found=true for every
queried name; if the value contains "%s", every occurrence of "%s" is
replaced by the queried name, otherwise the value is returned verbatim. -/
theorem C10_lookupstatic (val name : Str) :
    (LookupStatic val name).2 = true ∧
    LookupStatic val name
      = ((if goContains val (strB "%s") then goReplaceAll val (strB "%s") name else val), true) ∧
    LookupStatic (strB "a %s b %s") (strB "N") = (strB "a N b N", true) ∧
    LookupStatic (strB "const") (strB "N") = (strB "const", true) := by
  refine ⟨?_, ?_, by decide, by decide⟩
  · by_cases h : goContains val (strB "%s") = true <;> simp [LookupStatic, h]
  · by_cases h : goContains val (strB "%s") = true <;> simp [LookupStatic, h]

/-- Claim C7: ParseStringRule resolves the trimmed, lowercased tag in the
registry and returns that handler directly, ignoring any argument; when the
tag is unregistered, "expand" without a colon-separated argument fails with
"expand: missing regex", "expand" with an argument that fails to compile
fails with the wrapped compilation error, any other tag fails with
"unknown transform: <tag>", and "expand" with a valid pattern containing the
"key" group succeeds. -/
theorem C7_parse_rule (M : RegexpModel) (t : Transform) (rule : Str) :
    (∀ f : TransformFunc, assocGet t.Handlers (tagOf rule) = some f →
       Transform.ParseStringRule M t rule = (some f, none)) ∧
    (assocGet t.Handlers (tagOf rule) = none → tagOf rule = strB "expand" →
       (splitFirstByte 58 rule).2 = none →
       Transform.ParseStringRule M t rule = (none, some (strB "expand: missing regex"))) ∧
    (∀ arg e : Str, assocGet t.Handlers (tagOf rule) = none → tagOf rule = strB "expand" →
       (splitFirstByte 58 rule).2 = some arg → M.compile arg = Except.error e →
       Transform.ParseStringRule M t rule
         = (none, some (strB "regexp: " ++ arg ++ strB ": " ++ e))) ∧
    (assocGet t.Handlers (tagOf rule) = none → ¬ tagOf rule = strB "expand" →
       Transform.ParseStringRule M t rule
         = (none, some (strB "unknown transform: " ++ tagOf rule))) ∧
    (∀ (arg : Str) (re : Regexp), assocGet t.Handlers (tagOf rule) = none →
       tagOf rule = strB "expand" → (splitFirstByte 58 rule).2 = some arg →
       M.compile arg = Except.ok re → ¬ re.subexpIndex (strB "key") = -1 →
       (Transform.ParseStringRule M t rule).2 = none
         ∧ (Transform.ParseStringRule M t rule).1.isSome = true) := by
  refine ⟨?_, ?_, ?_, ?_, ?_⟩
  · intro f h
    simp [Transform.ParseStringRule, h]
  · intro h0 hexp hcolon
    rw [hexp] at h0
    simp [Transform.ParseStringRule, h0, hexp, hcolon]
  · intro arg e h0 hexp harg hcomp
    rw [hexp] at h0
    simp [Transform.ParseStringRule, h0, hexp, harg, hcomp]
  · intro h0 hexp
    simp [Transform.ParseStringRule, h0, hexp]
  · intro arg re h0 hexp harg hcomp hkey
    rw [hexp] at h0
    simp [Transform.ParseStringRule, h0, hexp, harg, hcomp, Transform.Expand, hkey]

/-- Claim C7 witness: the concrete parses from the spec — "expand" without an
argument, "expand" with an uncompilable pattern, an unknown tag, a registered
tag with an ignored argument, and a successful expand. -/
theorem C7_witness :
    Transform.ParseStringRule Mtest T0 (strB "expand")
      = (none, some (strB "expand: missing regex")) ∧
    Transform.ParseStringRule Mtest T0 (strB "expand:(?P<key>")
      = (none, some (strB "regexp: (?P<key>: missing closing )")) ∧
    Transform.ParseStringRule Mtest T0 (strB "bogus")
      = (none, some (strB "unknown transform: bogus")) ∧
    Transform.ParseStringRule Mtest T0 (strB " TRIM :junk") = (some Transform.Trim, none) ∧
    ((Transform.ParseStringRule Mtest T0 (strB "expand:pat")).2 = none
      ∧ (Transform.ParseStringRule Mtest T0 (strB "expand:pat")).1.isSome = true) := by
  refine ⟨?_, ?_, ?_, ?_, ?_⟩
  · exact (C7_parse_rule Mtest T0 (strB "expand")).2.1 (by rfl) (by decide) (by decide)
  · have h := (C7_parse_rule Mtest T0 (strB "expand:(?P<key>")).2.2.1 (strB "(?P<key>")
      (strB "missing closing )") (by rfl) (by decide) (by decide) (by rfl)
    rw [h]
    rfl
  · have h := (C7_parse_rule Mtest T0 (strB "bogus")).2.2.2.1 (by rfl) (by decide)
    rw [h]
    rfl
  · exact (C7_parse_rule Mtest T0 (strB " TRIM :junk")).1 Transform.Trim (by rfl)
  · exact (C7_parse_rule Mtest T0 (strB "expand:pat")).2.2.2.2 (strB "pat")
      (fixedRegexp (strB "pat") 0 0) (by rfl) (by decide) (by decide) (by rfl) (by decide)

/-- The functions produced by parsing each of the given sub-rule strings, in
order. -/
def parsedRules (M : RegexpModel) (t : Transform) (us : List Str) :
    List (Option TransformFunc) :=
  us.map (fun u => (Transform.ParseStringRule M t u).1)

theorem parseStringRule_rules_irrelevant (M : RegexpModel)
    (H : List (Str × TransformFunc)) (L : List LookupFunc)
    (R R2 : List (Option TransformFunc)) (u : Str) :
    Transform.ParseStringRule M ⟨H, L, R⟩ u = Transform.ParseStringRule M ⟨H, L, R2⟩ u := rfl

theorem parsedRules_rules_irrelevant (M : RegexpModel)
    (H : List (Str × TransformFunc)) (L : List LookupFunc)
    (R R2 : List (Option TransformFunc)) (us : List Str) :
    parsedRules M ⟨H, L, R⟩ us = parsedRules M ⟨H, L, R2⟩ us := rfl

theorem cleanedParts_cons_skip (p : Str) (rest : List Str)
    (hp : (goTrimSpace p).isEmpty = true) :
    cleanedParts (p :: rest) = cleanedParts rest := by
  simp [cleanedParts, List.filter_cons, hp]

theorem cleanedParts_cons_keep (p : Str) (rest : List Str)
    (hp : ¬ (goTrimSpace p).isEmpty = true) :
    cleanedParts (p :: rest) = goTrimSpace p :: cleanedParts rest := by
  simp [cleanedParts, List.filter_cons, hp]

theorem addSubRules_ok (M : RegexpModel) :
    ∀ (parts : List Str) (H : List (Str × TransformFunc)) (L : List LookupFunc)
      (R : List (Option TransformFunc)),
      (∀ u ∈ cleanedParts parts, (Transform.ParseStringRule M ⟨H, L, R⟩ u).2 = none) →
      addSubRules M ⟨H, L, R⟩ parts
        = (⟨H, L, R ++ parsedRules M ⟨H, L, R⟩ (cleanedParts parts)⟩, none) := by
  intro parts
  induction parts with
  | nil =>
    intro H L R h
    simp [addSubRules, cleanedParts, parsedRules]
  | cons p rest ih =>
    intro H L R h
    by_cases hp : (goTrimSpace p).isEmpty = true
    · rw [cleanedParts_cons_skip p rest hp] at h ⊢
      simp only [addSubRules]
      rw [if_pos hp]
      exact ih H L R h
    · rw [cleanedParts_cons_keep p rest hp] at h ⊢
      have hp0 := h (goTrimSpace p) (List.mem_cons_self _ _)
      rcases hparse : Transform.ParseStringRule M ⟨H, L, R⟩ (goTrimSpace p) with ⟨f, e1⟩
      rw [hparse] at hp0
      simp at hp0
      subst hp0
      simp only [addSubRules]
      rw [if_neg hp]
      simp only [hparse]
      have hrec := ih H L (R ++ [f]) (fun u hu => h u (List.mem_cons_of_mem _ hu))
      rw [hrec, parsedRules_rules_irrelevant M H L (R ++ [f]) R (cleanedParts rest)]
      simp [parsedRules, hparse, List.append_assoc]

theorem addSubRules_err (M : RegexpModel) :
    ∀ (parts : List Str) (H : List (Str × TransformFunc)) (L : List LookupFunc)
      (R : List (Option TransformFunc))
      (good : List Str) (bad : Str) (after : List Str) (e : Str),
      cleanedParts parts = good ++ bad :: after →
      (∀ u ∈ good, (Transform.ParseStringRule M ⟨H, L, R⟩ u).2 = none) →
      (Transform.ParseStringRule M ⟨H, L, R⟩ bad).2 = some e →
      addSubRules M ⟨H, L, R⟩ parts
        = (⟨H, L, R ++ parsedRules M ⟨H, L, R⟩ good⟩, some e) := by
  intro parts
  induction parts with
  | nil =>
    intro H L R good bad after e hcl hgood hbad
    simp [cleanedParts] at hcl
  | cons p rest ih =>
    intro H L R good bad after e hcl hgood hbad
    by_cases hp : (goTrimSpace p).isEmpty = true
    · rw [cleanedParts_cons_skip p rest hp] at hcl
      simp only [addSubRules]
      rw [if_pos hp]
      exact ih H L R good bad after e hcl hgood hbad
    · rw [cleanedParts_cons_keep p rest hp] at hcl
      cases good with
      | nil =>
        rw [List.nil_append, List.cons.injEq] at hcl
        obtain ⟨hb, ha⟩ := hcl
        subst hb
        rcases hparse : Transform.ParseStringRule M ⟨H, L, R⟩ (goTrimSpace p) with ⟨f, e1⟩
        rw [hparse] at hbad
        simp at hbad
        subst hbad
        simp only [addSubRules]
        rw [if_neg hp]
        simp only [hparse]
        simp [parsedRules]
      | cons g good2 =>
        rw [List.cons_append, List.cons.injEq] at hcl
        obtain ⟨hg, ha⟩ := hcl
        subst hg
        have hp0 := hgood (goTrimSpace p) (List.mem_cons_self _ _)
        rcases hparse : Transform.ParseStringRule M ⟨H, L, R⟩ (goTrimSpace p) with ⟨f, e1⟩
        rw [hparse] at hp0
        simp at hp0
        subst hp0
        simp only [addSubRules]
        rw [if_neg hp]
        simp only [hparse]
        have hrec := ih H L (R ++ [f]) good2 bad after e ha
          (fun u hu => hgood u (List.mem_cons_of_mem _ hu)) hbad
        rw [hrec, parsedRules_rules_irrelevant M H L (R ++ [f]) R good2]
        simp [parsedRules, hparse, List.append_assoc]

/-- Claim C6: AddStringRules splits every argument string on commas, trims
each sub-rule, skips empty ones, parses each non-empty sub-rule with
ParseStringRule and appends the parsed functions to Rules in left-to-right,
first-to-last order, then continues with the next argument string; the first
parse error is returned and processing stops there, with every rule appended
before the failing sub-rule remaining appended (no rollback). -/
theorem C6_add_string_rules (M : RegexpModel) (t0 : Transform) (r : Str) (rs : List Str) :
    ((∀ u ∈ subRuleList r, (Transform.ParseStringRule M t0 u).2 = none) →
      Transform.AddStringRules M t0 (r :: rs)
        = Transform.AddStringRules M
            ⟨t0.Handlers, t0.Lookups, t0.Rules ++ parsedRules M t0 (subRuleList r)⟩ rs) ∧
    (∀ (good : List Str) (bad : Str) (after : List Str) (e : Str),
      subRuleList r = good ++ bad :: after →
      (∀ u ∈ good, (Transform.ParseStringRule M t0 u).2 = none) →
      (Transform.ParseStringRule M t0 bad).2 = some e →
      Transform.AddStringRules M t0 (r :: rs)
        = (⟨t0.Handlers, t0.Lookups, t0.Rules ++ parsedRules M t0 good⟩, some e)) := by
  rcases t0 with ⟨H, L, R⟩
  constructor
  · intro h
    have ha := addSubRules_ok M (splitByte 44 r) H L R h
    simp only [Transform.AddStringRules]
    rw [ha]
    rfl
  · intro good bad after e hcl hgood hbad
    have ha := addSubRules_err M (splitByte 44 r) H L R good bad after e hcl hgood hbad
    simp only [Transform.AddStringRules]
    rw [ha]

/-- Claim C6 witness: "trim, upcase" appends [Trim, Upcase] in order with no
error; "trim, bogus, upcase" appends Trim, then stops at the unknown tag
"bogus" with its parse error, Trim remaining appended. -/
theorem C6_witness :
    Transform.AddStringRules Mtest T0 [strB "trim, upcase"]
        = (⟨defaultHandlers, [], [some Transform.Trim, some Transform.Upcase]⟩, none) ∧
    Transform.AddStringRules Mtest T0 [strB "trim, bogus, upcase"]
        = (⟨defaultHandlers, [], [some Transform.Trim]⟩,
           some (strB "unknown transform: bogus")) := by
  have h1 := (C6_add_string_rules Mtest T0 (strB "trim, upcase") []).1 (by decide)
  have h2 := (C6_add_string_rules Mtest T0 (strB "trim, bogus, upcase") []).2
      [strB "trim"] (strB "bogus") [strB "upcase"] (strB "unknown transform: bogus")
      (by decide) (by decide) (by decide)
  constructor
  · rw [h1]
    rfl
  · rw [h2]
    rfl

end transform

